import Mathlib

/-!
Shallow embedding of the kobo-highlights tool (Go) for verification:
- `formats/registry.go`: the `Book` / `Highlight` domain model.
- the Markdown exporter (`MarkdownFormat.Export`, `sanitizeFilename`).
- the query/grouping engine (`fetchBooks`).
- the Notion exporter (`NotionClient.EnsureBookPage` and helpers), modelled
  against an abstract HTTP service oracle, producing the request trace.

Strings are modelled as Lean `String` (a wrapper around `List Char`); Go
operates on UTF-8 bytes, and for the operations embedded here (per-character
replacement, whitespace trimming and splitting at code-point boundaries) the
byte-level and code-point-level descriptions agree.
-/

set_option maxRecDepth 8000

namespace KoboHighlights

/-- Character predicate of Go `unicode.IsSpace` (the white-space code points
recognised by `strings.TrimSpace` and `strings.Fields`). -/
def isGoSpace (c : Char) : Bool :=
  c = ' ' || c = '\t' || c = '\n' || c = Char.ofNat 11 || c = Char.ofNat 12 || c = '\r' ||
  c = Char.ofNat 0x85 || c = Char.ofNat 0xA0 || c = Char.ofNat 0x1680 ||
  (Char.ofNat 0x2000 ≤ c && c ≤ Char.ofNat 0x200A) ||
  c = Char.ofNat 0x2028 || c = Char.ofNat 0x2029 || c = Char.ofNat 0x202F ||
  c = Char.ofNat 0x205F || c = Char.ofNat 0x3000

/-- Drop trailing characters satisfying `p` (the right-hand half of trimming). -/
def dropTrailing (p : Char → Bool) (l : List Char) : List Char :=
  (l.reverse.dropWhile p).reverse

/-- Go `strings.TrimSpace` on the character list. -/
def trimSpaceChars (l : List Char) : List Char :=
  dropTrailing isGoSpace (l.dropWhile isGoSpace)

/-- Go `strings.TrimSpace`. -/
def goTrimSpace (s : String) : String := String.mk (trimSpaceChars s.data)

/-- The characters `sanitizeFilename`'s replacer maps to `"-"`:
`/ \ : * |`. -/
def isDashChar (c : Char) : Bool :=
  c = '/' || c = '\\' || c = ':' || c = '*' || c = '|'

/-- The characters `sanitizeFilename`'s replacer removes: `? " < >`. -/
def isDropChar (c : Char) : Bool :=
  c = '?' || c = '\"' || c = '<' || c = '>'

/-- The nine path-hostile characters handled by the replacer. -/
def isBannedChar (c : Char) : Bool :=
  c = '/' || c = '\\' || c = ':' || c = '*' || c = '?' || c = '\"' || c = '<' || c = '>' || c = '|'

/-- Per-character action of the `strings.NewReplacer` in `sanitizeFilename`
(all patterns are single characters, so the one-pass replacer acts
independently on each character). -/
def replacerChar (c : Char) : List Char :=
  if isDashChar c then ['-'] else if isDropChar c then [] else [c]

/-- Apply the replacer over the whole character list. -/
def replaceAllChars (l : List Char) : List Char :=
  l.foldr (fun c acc => replacerChar c ++ acc) []

/-- One step of Go `strings.Fields`, consumed by `List.foldr` (processing the
string right to left, carrying the field under construction and the completed
fields). -/
def fieldsStep (c : Char) (acc : List Char × List (List Char)) :
    List Char × List (List Char) :=
  if isGoSpace c then ([], if acc.1 = [] then acc.2 else acc.1 :: acc.2)
  else (c :: acc.1, acc.2)

/-- Fold state of `goFields`. -/
def goFieldsAux (l : List Char) : List Char × List (List Char) :=
  l.foldr fieldsStep ([], [])

/-- Go `strings.Fields`: maximal runs of non-white-space characters. -/
def goFields (l : List Char) : List (List Char) :=
  let r := goFieldsAux l
  if r.1 = [] then r.2 else r.1 :: r.2

/-- Go `strings.Join(fields, "-")`. -/
def joinHyphen : List (List Char) → List Char
  | [] => []
  | [f] => f
  | f :: fs => f ++ '-' :: joinHyphen fs

/-- `sanitizeFilename` from `formats` (Markdown exporter), on character lists:
trim, replace path-hostile characters, collapse white-space runs to single
`-` separators, and fall back to `"book"` when nothing remains. -/
def sanitizeChars (l : List Char) : List Char :=
  if joinHyphen (goFields (replaceAllChars (trimSpaceChars l))) = [] then "book".data
  else joinHyphen (goFields (replaceAllChars (trimSpaceChars l)))

/-- `sanitizeFilename` from the source. -/
def sanitizeFilename (s : String) : String := String.mk (sanitizeChars s.data)

/-- Domain model: `Highlight` from `formats/registry.go`. -/
structure Highlight where
  Text : String
  Date : String
deriving DecidableEq

/-- Domain model: `Book` from `formats/registry.go`. -/
structure Book where
  Title : String
  Author : String
  Highlights : List Highlight
deriving DecidableEq

instance : Inhabited Book := ⟨⟨"", "", []⟩⟩

/-- `strings.ReplaceAll(text, "\n", " ")` in the Markdown exporter. -/
def replaceNewlines (s : String) : String :=
  String.mk (s.data.map (fun c => if c = '\n' then ' ' else c))

/-- The text the Markdown exporter emits for one highlight: a block quote
followed by a blank line, or nothing when the trimmed text is empty
(the `continue` branch). -/
def markdownHighlightChunk (h : Highlight) : String :=
  let text := goTrimSpace h.Text
  if text = "" then "" else "> " ++ replaceNewlines text ++ "\n\n"

/-- The heading written by `MarkdownFormat.Export`: with the parenthesized
author when non-empty. -/
def markdownHeading (b : Book) : String :=
  if b.Author ≠ "" then "# " ++ b.Title ++ " (" ++ b.Author ++ ")\n\n"
  else "# " ++ b.Title ++ "\n\n"

/-- The full file content `MarkdownFormat.Export` writes for one book:
the heading then each highlight chunk in order (sequential `Fprintf` calls). -/
def markdownContent (b : Book) : String :=
  b.Highlights.foldl (fun acc h => acc ++ markdownHighlightChunk h) (markdownHeading b)

/-- The file name computed by `MarkdownFormat.Export` for a book:
`sanitizeFilename(title)` or `sanitizeFilename(title + "-" + author)`. -/
def markdownFileName (b : Book) : String :=
  if b.Author ≠ "" then sanitizeFilename (b.Title ++ "-" ++ b.Author)
  else sanitizeFilename b.Title

/-- The output path (`filepath.Join(dir, filename + ".md")`, modelled for a
plain directory name as concatenation with `/`). -/
def markdownPath (dir : String) (b : Book) : String :=
  dir ++ "/" ++ markdownFileName b ++ ".md"

/-- The sequence of `(path, content)` file writes `MarkdownFormat.Export`
performs, in order. -/
def markdownExport (dir : String) (books : List Book) : List (String × String) :=
  books.map (fun b => (markdownPath dir b, markdownContent b))

/-- `os.Create` + write on a file system modelled as an association list:
truncates (replaces) an existing file at the same path, else creates it. -/
def writeFile (fs : List (String × String)) (p c : String) : List (String × String) :=
  if (fs.find? (fun e => e.1 = p)).isSome then
    fs.map (fun e => if e.1 = p then (p, c) else e)
  else fs ++ [(p, c)]

/-- The file system resulting from performing a write sequence in order. -/
def runWrites (ws : List (String × String)) : List (String × String) :=
  ws.foldl (fun fs w => writeFile fs w.1 w.2) []

theorem isBannedChar_of_parts (c : Char) (h1 : isDashChar c = false)
    (h2 : isDropChar c = false) : isBannedChar c = false := by
  simp only [isDashChar, isDropChar, isBannedChar, Bool.or_eq_false_iff,
    decide_eq_false_iff_not] at h1 h2 ⊢
  tauto

theorem isDashChar_of_banned (c : Char) (h : isBannedChar c = false) :
    isDashChar c = false := by
  simp only [isDashChar, isBannedChar, Bool.or_eq_false_iff,
    decide_eq_false_iff_not] at h ⊢
  tauto

theorem isDropChar_of_banned (c : Char) (h : isBannedChar c = false) :
    isDropChar c = false := by
  simp only [isDropChar, isBannedChar, Bool.or_eq_false_iff,
    decide_eq_false_iff_not] at h ⊢
  tauto

theorem replacerChar_not_banned (c c' : Char) (h : c' ∈ replacerChar c) :
    isBannedChar c' = false := by
  unfold replacerChar at h
  by_cases h1 : isDashChar c = true
  · simp [h1] at h
    subst h; decide
  · by_cases h2 : isDropChar c = true
    · simp [Bool.not_eq_true] at h1
      simp [h1, h2] at h
    · simp [Bool.not_eq_true] at h1 h2
      simp [h1, h2] at h
      subst h
      exact isBannedChar_of_parts _ h1 h2

theorem replaceAllChars_not_banned (l : List Char) (c : Char)
    (h : c ∈ replaceAllChars l) : isBannedChar c = false := by
  induction l with
  | nil => simp [replaceAllChars] at h
  | cons a t ih =>
    have : replaceAllChars (a :: t) = replacerChar a ++ replaceAllChars t := rfl
    rw [this] at h
    rcases List.mem_append.mp h with h' | h'
    · exact replacerChar_not_banned a c h'
    · exact ih h'

theorem replacerChar_of_not_banned (c : Char) (h : isBannedChar c = false) :
    replacerChar c = [c] := by
  unfold replacerChar
  rw [isDashChar_of_banned c h, isDropChar_of_banned c h]
  simp

theorem replaceAllChars_of_not_banned (l : List Char)
    (h : ∀ c ∈ l, isBannedChar c = false) : replaceAllChars l = l := by
  induction l with
  | nil => rfl
  | cons a t ih =>
    have : replaceAllChars (a :: t) = replacerChar a ++ replaceAllChars t := rfl
    rw [this, replacerChar_of_not_banned a (h a (by simp)),
      ih (fun c hc => h c (by simp [hc]))]
    rfl

theorem goFieldsAux_spec (l : List Char) :
    (∀ c ∈ (goFieldsAux l).1, c ∈ l ∧ isGoSpace c = false) ∧
    (∀ f ∈ (goFieldsAux l).2, f ≠ [] ∧ ∀ c ∈ f, c ∈ l ∧ isGoSpace c = false) := by
  induction l with
  | nil => simp [goFieldsAux]
  | cons a t ih =>
    have hstep : goFieldsAux (a :: t) = fieldsStep a (goFieldsAux t) := rfl
    rw [hstep]
    unfold fieldsStep
    by_cases hs : isGoSpace a = true
    · simp only [hs, if_true]
      by_cases he : (goFieldsAux t).1 = []
      · simp only [he, if_pos rfl]
        constructor
        · intro c hc; simp at hc
        · intro f hf
          rcases (ih.2 f hf) with ⟨hne, hmem⟩
          exact ⟨hne, fun c hc => ⟨List.mem_cons_of_mem a (hmem c hc).1, (hmem c hc).2⟩⟩
      · simp only [if_neg he]
        constructor
        · intro c hc; simp at hc
        · intro f hf
          rcases List.mem_cons.mp hf with h | h
          · subst h
            exact ⟨he, fun c hc => ⟨List.mem_cons_of_mem a (ih.1 c hc).1, (ih.1 c hc).2⟩⟩
          · rcases (ih.2 f h) with ⟨hne, hmem⟩
            exact ⟨hne, fun c hc => ⟨List.mem_cons_of_mem a (hmem c hc).1, (hmem c hc).2⟩⟩
    · simp only [hs, if_false]
      constructor
      · intro c hc
        rcases List.mem_cons.mp hc with h | h
        · rw [h]
          refine ⟨List.mem_cons_self a t, ?_⟩
          simpa using hs
        · exact ⟨List.mem_cons_of_mem a (ih.1 c h).1, (ih.1 c h).2⟩
      · intro f hf
        rcases (ih.2 f hf) with ⟨hne, hmem⟩
        exact ⟨hne, fun c hc => ⟨List.mem_cons_of_mem a (hmem c hc).1, (hmem c hc).2⟩⟩

theorem goFields_chars (l : List Char) (f : List Char) (hf : f ∈ goFields l) :
    f ≠ [] ∧ ∀ c ∈ f, c ∈ l ∧ isGoSpace c = false := by
  unfold goFields at hf
  by_cases he : (goFieldsAux l).1 = []
  · simp only [he, if_pos rfl] at hf
    exact (goFieldsAux_spec l).2 f hf
  · simp only [if_neg he] at hf
    rcases List.mem_cons.mp hf with h | h
    · subst h
      exact ⟨he, (goFieldsAux_spec l).1⟩
    · exact (goFieldsAux_spec l).2 f h

theorem goFieldsAux_nospace (l : List Char) (h : ∀ c ∈ l, isGoSpace c = false) :
    goFieldsAux l = (l, []) := by
  induction l with
  | nil => rfl
  | cons a t ih =>
    have hstep : goFieldsAux (a :: t) = fieldsStep a (goFieldsAux t) := rfl
    rw [hstep, ih (fun c hc => h c (by simp [hc]))]
    unfold fieldsStep
    simp [h a (by simp)]

theorem goFields_nospace (l : List Char) (h : ∀ c ∈ l, isGoSpace c = false)
    (hne : l ≠ []) : goFields l = [l] := by
  unfold goFields
  rw [goFieldsAux_nospace l h]
  simp [hne]

theorem joinHyphen_mem (fs : List (List Char)) (c : Char)
    (h : c ∈ joinHyphen fs) : c = '-' ∨ ∃ f ∈ fs, c ∈ f := by
  induction fs with
  | nil => simp [joinHyphen] at h
  | cons f gs ih =>
    cases gs with
    | nil =>
      simp only [joinHyphen] at h
      exact Or.inr ⟨f, by simp, h⟩
    | cons g gs' =>
      have : joinHyphen (f :: g :: gs') = f ++ '-' :: joinHyphen (g :: gs') := rfl
      rw [this] at h
      rcases List.mem_append.mp h with h' | h'
      · exact Or.inr ⟨f, by simp, h'⟩
      · rcases List.mem_cons.mp h' with h'' | h''
        · exact Or.inl h''
        · rcases ih h'' with h3 | ⟨f', hf', hc⟩
          · exact Or.inl h3
          · exact Or.inr ⟨f', List.mem_cons_of_mem f hf', hc⟩

theorem dropWhile_eq_self_of (p : Char → Bool) (l : List Char)
    (h : ∀ c ∈ l, p c = false) : l.dropWhile p = l := by
  cases l with
  | nil => rfl
  | cons a t => simp [List.dropWhile_cons, h a (by simp)]

theorem dropWhile_eq_nil_of (p : Char → Bool) (l : List Char)
    (h : ∀ c ∈ l, p c = true) : l.dropWhile p = [] := by
  induction l with
  | nil => rfl
  | cons a t ih =>
    simp [List.dropWhile_cons, h a (by simp), ih (fun c hc => h c (by simp [hc]))]

theorem trimSpaceChars_eq_self (l : List Char)
    (h : ∀ c ∈ l, isGoSpace c = false) : trimSpaceChars l = l := by
  unfold trimSpaceChars dropTrailing
  rw [dropWhile_eq_self_of _ l h,
    dropWhile_eq_self_of _ l.reverse (fun c hc => h c (List.mem_reverse.mp hc)),
    List.reverse_reverse]

theorem trimSpaceChars_all_space (l : List Char)
    (h : ∀ c ∈ l, isGoSpace c = true) : trimSpaceChars l = [] := by
  unfold trimSpaceChars dropTrailing
  rw [dropWhile_eq_nil_of _ l h]
  rfl

theorem sanitizeChars_mem (l : List Char) (c : Char) (hc : c ∈ sanitizeChars l) :
    isGoSpace c = false ∧ isBannedChar c = false := by
  unfold sanitizeChars at hc
  set r := replaceAllChars (trimSpaceChars l) with hr
  by_cases hj : joinHyphen (goFields r) = []
  · rw [if_pos hj] at hc
    have hbk : "book".data = ['b', 'o', 'o', 'k'] := rfl
    rw [hbk] at hc
    fin_cases hc <;> exact ⟨by decide, by decide⟩
  · rw [if_neg hj] at hc
    rcases joinHyphen_mem _ c hc with h | ⟨f, hf, hcf⟩
    · subst h; exact ⟨by decide, by decide⟩
    · rcases goFields_chars r f hf with ⟨_, hchars⟩
      rcases hchars c hcf with ⟨hcr, hns⟩
      exact ⟨hns, replaceAllChars_not_banned _ c hcr⟩

theorem sanitizeChars_book : sanitizeChars "book".data = "book".data := by decide

theorem sanitizeChars_idem (l : List Char) :
    sanitizeChars (sanitizeChars l) = sanitizeChars l := by
  have hprops := sanitizeChars_mem l
  by_cases hb : sanitizeChars l = "book".data
  · rw [hb]; exact sanitizeChars_book
  · have hne : sanitizeChars l ≠ [] := by
      intro h0
      apply hb
      unfold sanitizeChars at h0 ⊢
      by_cases hj : joinHyphen (goFields (replaceAllChars (trimSpaceChars l))) = []
      · rw [if_pos hj]
      · rw [if_neg hj] at h0
        exact absurd h0 hj
    set o := sanitizeChars l with ho
    unfold sanitizeChars
    rw [trimSpaceChars_eq_self o (fun c hc => (hprops c hc).1),
      replaceAllChars_of_not_banned o (fun c hc => (hprops c hc).2),
      goFields_nospace o (fun c hc => (hprops c hc).1) hne]
    have : joinHyphen [o] = o := rfl
    rw [this, if_neg hne]

theorem sanitizeChars_all_space (l : List Char)
    (h : ∀ c ∈ l, isGoSpace c = true) : sanitizeChars l = "book".data := by
  unfold sanitizeChars
  rw [trimSpaceChars_all_space l h]
  rfl

/-- **C6.** The filename sanitizer is idempotent; its output never contains
any of the nine path-hostile characters `/ \ : * ? " < > |`; and any input
that is empty or consists solely of white space normalizes to `"book"`. -/
theorem c6_sanitizeFilename_spec :
    (∀ s : String, sanitizeFilename (sanitizeFilename s) = sanitizeFilename s) ∧
    (∀ s : String, ∀ c ∈ (sanitizeFilename s).data, isBannedChar c = false) ∧
    (∀ s : String, (∀ c ∈ s.data, isGoSpace c = true) → sanitizeFilename s = "book") := by
  refine ⟨fun s => ?_, fun s c hc => ?_, fun s h => ?_⟩
  · show String.mk (sanitizeChars (sanitizeChars s.data)) = String.mk (sanitizeChars s.data)
    rw [sanitizeChars_idem]
  · exact (sanitizeChars_mem s.data c hc).2
  · show String.mk (sanitizeChars s.data) = "book"
    rw [sanitizeChars_all_space s.data h]

/-- Concrete instantiation of `c6_sanitizeFilename_spec`: the white-space-only
input `"  "` satisfies the hypothesis of the third conjunct and maps to
`"book"`; idempotence checked on the concrete input `"a/b?"`. -/
theorem c6_sanitizeFilename_spec_witness :
    (∀ c ∈ ("  " : String).data, isGoSpace c = true) ∧
    sanitizeFilename "  " = "book" ∧
    sanitizeFilename (sanitizeFilename "a/b?") = sanitizeFilename "a/b?" :=
  ⟨by decide, c6_sanitizeFilename_spec.2.2 "  " (by decide),
    c6_sanitizeFilename_spec.1 "a/b?"⟩

theorem string_foldl_append (l : List String) (init : String) :
    l.foldl (· ++ ·) init = init ++ l.foldl (· ++ ·) "" := by
  induction l generalizing init with
  | nil => simp [List.foldl, String.append_empty]
  | cons a t ih =>
    show t.foldl (· ++ ·) (init ++ a) = init ++ (a :: t).foldl (· ++ ·) ""
    rw [ih (init ++ a)]
    show init ++ a ++ t.foldl (· ++ ·) "" = init ++ t.foldl (· ++ ·) ("" ++ a)
    rw [ih ("" ++ a), String.empty_append, String.append_assoc]

theorem foldl_chunk_eq_join (f : Highlight → String) (l : List Highlight)
    (init : String) :
    l.foldl (fun acc h => acc ++ f h) init = init ++ String.join (l.map f) := by
  have hfold : ∀ (m : List Highlight) (s : String),
      m.foldl (fun acc h => acc ++ f h) s = (m.map f).foldl (· ++ ·) s := by
    intro m
    induction m with
    | nil => intro s; rfl
    | cons a t ih => intro s; exact ih (s ++ f a)
  rw [hfold, String.join, string_foldl_append]

/-- **C5.** The Markdown exporter writes, for each book, the heading
`# <title> (<author>)` (author omitted when empty) followed by a blank line,
then each highlight with non-blank trimmed text as a `> `-quoted line with
internal newlines replaced by spaces followed by a blank line, skipping
highlights whose trimmed text is empty; on the concrete book
`{title := "T", author := "A", highlights := ["x", "y"]}` the file content is
exactly `"# T (A)\n\n> x\n\n> y\n\n"`. -/
theorem c5_markdownContent_spec :
    (∀ b : Book, markdownContent b =
        markdownHeading b ++ String.join (b.Highlights.map markdownHighlightChunk)) ∧
    (∀ b : Book, b.Author = "" → markdownHeading b = "# " ++ b.Title ++ "\n\n") ∧
    (∀ b : Book, b.Author ≠ "" →
        markdownHeading b = "# " ++ b.Title ++ " (" ++ b.Author ++ ")\n\n") ∧
    (∀ h : Highlight, goTrimSpace h.Text = "" → markdownHighlightChunk h = "") ∧
    (∀ h : Highlight, goTrimSpace h.Text ≠ "" →
        markdownHighlightChunk h = "> " ++ replaceNewlines (goTrimSpace h.Text) ++ "\n\n") ∧
    markdownContent ⟨"T", "A", [⟨"x", "d1"⟩, ⟨"y", "d2"⟩]⟩ = "# T (A)\n\n> x\n\n> y\n\n" := by
  refine ⟨fun b => ?_, fun b hb => ?_, fun b hb => ?_, fun h hh => ?_, fun h hh => ?_, by decide⟩
  · exact foldl_chunk_eq_join markdownHighlightChunk b.Highlights (markdownHeading b)
  · simp [markdownHeading, hb]
  · simp [markdownHeading, hb]
  · simp [markdownHighlightChunk, hh]
  · simp only [markdownHighlightChunk]
    rw [if_neg hh]

/-- Concrete instantiation of `c5_markdownContent_spec`: the empty-author and
blank-highlight branches at explicit inputs. -/
theorem c5_markdownContent_spec_witness :
    (Book.mk "T" "" [] |>.Author) = "" ∧
    markdownHeading ⟨"T", "", []⟩ = "# " ++ "T" ++ "\n\n" ∧
    goTrimSpace (Highlight.mk " \n " "d" |>.Text) = "" ∧
    markdownHighlightChunk ⟨" \n ", "d"⟩ = "" :=
  ⟨rfl, c5_markdownContent_spec.2.1 ⟨"T", "", []⟩ rfl, by decide,
    c5_markdownContent_spec.2.2.2.1 ⟨" \n ", "d"⟩ (by decide)⟩

/-- **C10.** The sanitizer is not injective: the distinct titles `"a/b"` and
`"a:b"` (and likewise `"a  b"` vs `"a b"`) sanitize to the same file name, so
the Markdown exporter computes the same output path for both books, and after
the export's write sequence the file written for the later book has replaced
the earlier one: the resulting file system holds a single file whose content
is the second book's content. -/
theorem c10_sanitize_collision :
    (Book.mk "a/b" "" [⟨"x", "d"⟩]) ≠ (Book.mk "a:b" "" [⟨"y", "d"⟩]) ∧
    sanitizeFilename "a/b" = sanitizeFilename "a:b" ∧
    sanitizeFilename "a  b" = sanitizeFilename "a b" ∧
    markdownPath "out" ⟨"a/b", "", [⟨"x", "d"⟩]⟩ =
      markdownPath "out" ⟨"a:b", "", [⟨"y", "d"⟩]⟩ ∧
    runWrites (markdownExport "out" [⟨"a/b", "", [⟨"x", "d"⟩]⟩, ⟨"a:b", "", [⟨"y", "d"⟩]⟩]) =
      [(markdownPath "out" ⟨"a:b", "", [⟨"y", "d"⟩]⟩,
        markdownContent ⟨"a:b", "", [⟨"y", "d"⟩]⟩)] := by
  refine ⟨by decide, by decide, by decide, by decide, by decide⟩

/-- A raw row produced by the SQL query in `fetchBooks`
(`c.Title, COALESCE(c.Attribution, ''), b.Text, b.DateCreated`), in query
order. -/
structure Row where
  Title : String
  Author : String
  Text : String
  Date : String
deriving DecidableEq

/-- The `Highlight` built from a scanned row. -/
def rowHighlight (r : Row) : Highlight := ⟨r.Text, r.Date⟩

/-- One iteration of the grouping loop in `fetchBooks`: the accumulator is
the `grouped` map together with the `order` slice, represented as the list of
books in first-seen title order. A row whose title is already present appends
its highlight to that book (author untouched); a new title appends a new book
at the end. -/
def addRow (acc : List Book) (r : Row) : List Book :=
  match acc with
  | [] => [⟨r.Title, r.Author, [rowHighlight r]⟩]
  | b :: bs =>
    if b.Title = r.Title then
      { b with Highlights := b.Highlights ++ [rowHighlight r] } :: bs
    else b :: addRow bs r

/-- The grouping loop over all fetched rows. -/
def groupRows (rows : List Row) : List Book := rows.foldl addRow []

/-- First-occurrence deduplication of a title list (the contents of the
`order` slice after the loop). -/
def firstDedup : List String → List String
  | [] => []
  | t :: ts => t :: (firstDedup ts).filter (fun x => x ≠ t)

/-- The book the grouping loop ends up with for title `t`: the author of the
first row bearing `t`, and the highlights of all rows bearing `t` in row
order. -/
def specBook (rows : List Row) (t : String) : Book :=
  { Title := t
  , Author := ((rows.find? (fun r => r.Title = t)).map Row.Author).getD ""
  , Highlights := (rows.filter (fun r => r.Title = t)).map rowHighlight }

/-- Closed form of the grouping loop's final state. -/
def gspec (rows : List Row) : List Book :=
  (firstDedup (rows.map Row.Title)).map (specBook rows)

/-- The order `sort.Strings` sorts by (byte order on UTF-8 strings, which is
code-point lexicographic order on the character lists). -/
def titleOrder (a b : String) : Prop := a.data ≤ b.data

instance : DecidableRel titleOrder :=
  fun a b => inferInstanceAs (Decidable (a.data ≤ b.data))

instance : IsTrans String titleOrder := ⟨fun _ _ _ h1 h2 => le_trans h1 h2⟩

instance : IsTotal String titleOrder := ⟨fun a b => le_total a.data b.data⟩

/-- The tail of `fetchBooks`: `sort.Strings(order)` followed by emitting
`*grouped[t]` for each sorted title (the map lookup is `find?` on the grouped
list, whose titles are distinct). `insertionSort` stands in for Go's sort:
on the duplicate-free `order` slice every correct sort produces the same
list. -/
def fetchBooksGroup (rows : List Row) : List Book :=
  (List.insertionSort titleOrder ((groupRows rows).map Book.Title)).map
    (fun t => ((groupRows rows).find? (fun b => b.Title = t)).getD default)

/-- SQLite `TRIM` trims ASCII space characters only. -/
def isSqlSpace (c : Char) : Bool := c = ' '

/-- SQLite `TRIM(x)` on the character list. -/
def sqlTrimChars (l : List Char) : List Char :=
  dropTrailing isSqlSpace (l.dropWhile isSqlSpace)

/-- SQLite `TRIM(x)`. -/
def sqlTrim (s : String) : String := String.mk (sqlTrimChars s.data)

/-- The `WHERE b.Text IS NOT NULL AND LENGTH(TRIM(b.Text)) > 0` row filter
(a row's text is a string here, so the non-NULL part is inherent). -/
def rowKept (r : Row) : Bool := sqlTrim r.Text ≠ ""

/-- `fetchBooks` after the schema check, as a function of the (document-
ordered) joined rows and the `limit` argument: the SQL applies the non-blank
filter, then `LIMIT ?` when `limit > 0`, and the rows reach the grouping
loop; `limit <= 0` runs the query without `LIMIT`. -/
def fetchBooksModel (rows : List Row) (limit : Int) : List Book :=
  if limit > 0 then fetchBooksGroup ((rows.filter rowKept).take limit.toNat)
  else fetchBooksGroup (rows.filter rowKept)

/-- Total number of highlights across a book list. -/
def totalHighlights (books : List Book) : Nat :=
  (books.map (fun b => b.Highlights.length)).sum

theorem firstDedup_append_notMem (l : List String) (a : String) (h : a ∉ l) :
    firstDedup (l ++ [a]) = firstDedup l ++ [a] := by
  induction l with
  | nil => rfl
  | cons x xs ih =>
    have hax : a ≠ x := by intro he; exact h (he ▸ List.mem_cons_self x xs)
    have haxs : a ∉ xs := fun hm => h (List.mem_cons_of_mem x hm)
    show x :: (firstDedup (xs ++ [a])).filter (fun y => y ≠ x) = _
    rw [ih haxs, List.filter_append]
    have : List.filter (fun y => decide (y ≠ x)) [a] = [a] := by
      simp [List.filter, hax]
    simp only [this]
    rfl

theorem firstDedup_append_mem (l : List String) (a : String) (h : a ∈ l) :
    firstDedup (l ++ [a]) = firstDedup l := by
  induction l with
  | nil => simp at h
  | cons x xs ih =>
    by_cases hm : a ∈ xs
    · show x :: (firstDedup (xs ++ [a])).filter (fun y => y ≠ x) = _
      rw [ih hm]
      rfl
    · have hax : a = x := by
        rcases List.mem_cons.mp h with h1 | h1
        · exact h1
        · exact absurd h1 hm
      subst hax
      show a :: (firstDedup (xs ++ [a])).filter (fun y => y ≠ a) = _
      rw [firstDedup_append_notMem xs a hm, List.filter_append]
      have : List.filter (fun y => decide (y ≠ a)) [a] = [] := by
        simp [List.filter]
      simp only [this, List.append_nil]
      rfl

theorem mem_firstDedup (l : List String) (a : String) :
    a ∈ firstDedup l ↔ a ∈ l := by
  induction l with
  | nil => simp [firstDedup]
  | cons x xs ih =>
    show a ∈ x :: (firstDedup xs).filter (fun y => y ≠ x) ↔ _
    simp only [List.mem_cons, List.mem_filter, decide_eq_true_eq]
    constructor
    · rintro (h | ⟨h1, _⟩)
      · exact Or.inl h
      · exact Or.inr (ih.mp h1)
    · rintro (h | h)
      · exact Or.inl h
      · by_cases hax : a = x
        · exact Or.inl hax
        · exact Or.inr ⟨ih.mpr h, hax⟩

theorem nodup_firstDedup (l : List String) : (firstDedup l).Nodup := by
  induction l with
  | nil => exact List.nodup_nil
  | cons x xs ih =>
    show (x :: (firstDedup xs).filter (fun y => y ≠ x)).Nodup
    refine List.nodup_cons.mpr ⟨?_, List.Nodup.filter _ ih⟩
    intro hx
    rcases List.mem_filter.mp hx with ⟨_, hne⟩
    simp at hne

theorem find?_title_eq_none (rows : List Row) (t : String)
    (h : t ∉ rows.map Row.Title) :
    rows.find? (fun r => r.Title = t) = none := by
  apply List.find?_eq_none.mpr
  intro x hx
  simp only [decide_eq_true_eq]
  intro he
  exact h (he ▸ List.mem_map_of_mem Row.Title hx)

theorem find?_title_isSome (rows : List Row) (t : String)
    (h : t ∈ rows.map Row.Title) :
    (rows.find? (fun r => r.Title = t)).isSome := by
  rcases List.mem_map.mp h with ⟨r, hr, ht⟩
  exact List.find?_isSome.mpr ⟨r, hr, by simp only [decide_eq_true_eq]; exact ht⟩

theorem filter_title_eq_nil (rows : List Row) (t : String)
    (h : t ∉ rows.map Row.Title) :
    rows.filter (fun r => r.Title = t) = [] := by
  apply List.filter_eq_nil_iff.mpr
  intro x hx
  simp only [decide_eq_true_eq]
  intro he
  exact h (he ▸ List.mem_map_of_mem Row.Title hx)

theorem specBook_append_ne (rs : List Row) (r : Row) (t : String)
    (h : t ≠ r.Title) : specBook (rs ++ [r]) t = specBook rs t := by
  unfold specBook
  rw [List.find?_append, List.filter_append]
  have h1 : List.find? (fun x => x.Title = t) [r] = none := by
    simp [List.find?, Ne.symm h]
  have h2 : List.filter (fun x => x.Title = t) [r] = [] := by
    simp [List.filter, Ne.symm h]
  rw [h1, h2, Option.or_none, List.append_nil]

theorem specBook_append_self_mem (rs : List Row) (r : Row)
    (h : r.Title ∈ rs.map Row.Title) :
    specBook (rs ++ [r]) r.Title =
      { specBook rs r.Title with
        Highlights := (specBook rs r.Title).Highlights ++ [rowHighlight r] } := by
  unfold specBook
  rw [List.find?_append, List.filter_append]
  rcases Option.isSome_iff_exists.mp (find?_title_isSome rs r.Title h) with ⟨x, hx⟩
  have h2 : List.filter (fun x => x.Title = r.Title) [r] = [r] := by
    simp [List.filter]
  rw [hx, h2, List.map_append]
  rfl

theorem specBook_append_self_new (rs : List Row) (r : Row)
    (h : r.Title ∉ rs.map Row.Title) :
    specBook (rs ++ [r]) r.Title = ⟨r.Title, r.Author, [rowHighlight r]⟩ := by
  unfold specBook
  rw [List.find?_append, List.filter_append, find?_title_eq_none rs r.Title h,
    filter_title_eq_nil rs r.Title h]
  have h1 : List.find? (fun x => x.Title = r.Title) [r] = some r := by
    simp [List.find?]
  have h2 : List.filter (fun x => x.Title = r.Title) [r] = [r] := by
    simp [List.filter]
  rw [h1, h2]
  rfl

theorem addRow_notMem (bs : List Book) (r : Row)
    (h : r.Title ∉ bs.map Book.Title) :
    addRow bs r = bs ++ [⟨r.Title, r.Author, [rowHighlight r]⟩] := by
  induction bs with
  | nil => rfl
  | cons b bs' ih =>
    have hne : b.Title ≠ r.Title := by
      intro he
      exact h (by simp [he.symm])
    show (if b.Title = r.Title then _ else b :: addRow bs' r) = _
    rw [if_neg hne, ih (fun hm => h (List.mem_cons_of_mem _ hm))]
    rfl

theorem map_update_notMem (bs : List Book) (r : Row)
    (h : r.Title ∉ bs.map Book.Title) :
    bs.map (fun b => if b.Title = r.Title then
      { b with Highlights := b.Highlights ++ [rowHighlight r] } else b) = bs := by
  have : ∀ b ∈ bs, (if b.Title = r.Title then
      { b with Highlights := b.Highlights ++ [rowHighlight r] } else b) = b := by
    intro b hb
    rw [if_neg]
    intro he
    exact h (he ▸ List.mem_map_of_mem Book.Title hb)
  rw [List.map_congr_left this]
  exact List.map_id' bs

theorem addRow_mem (bs : List Book) (r : Row)
    (hnd : (bs.map Book.Title).Nodup) (h : r.Title ∈ bs.map Book.Title) :
    addRow bs r = bs.map (fun b => if b.Title = r.Title then
      { b with Highlights := b.Highlights ++ [rowHighlight r] } else b) := by
  induction bs with
  | nil => simp at h
  | cons b bs' ih =>
    rcases List.nodup_cons.mp hnd with ⟨hbt, hnd'⟩
    by_cases he : b.Title = r.Title
    · show (if b.Title = r.Title then
          { b with Highlights := b.Highlights ++ [rowHighlight r] } :: bs' else _) = _
      rw [if_pos he, List.map_cons, if_pos he,
        map_update_notMem bs' r (he ▸ hbt)]
    · have hmem' : r.Title ∈ bs'.map Book.Title := by
        rcases List.mem_cons.mp h with h1 | h1
        · exact absurd h1.symm he
        · exact h1
      show (if b.Title = r.Title then _ else b :: addRow bs' r) = _
      rw [if_neg he, ih hnd' hmem', List.map_cons, if_neg he]

theorem gspec_titles (rows : List Row) :
    (gspec rows).map Book.Title = firstDedup (rows.map Row.Title) := by
  unfold gspec
  rw [List.map_map]
  have : ∀ t ∈ firstDedup (rows.map Row.Title), (Book.Title ∘ specBook rows) t = id t :=
    fun t _ => rfl
  rw [List.map_congr_left this, List.map_id]

theorem addRow_gspec (rs : List Row) (r : Row) :
    addRow (gspec rs) r = gspec (rs ++ [r]) := by
  have htitles := gspec_titles rs
  by_cases hmem : r.Title ∈ rs.map Row.Title
  · have hnd : ((gspec rs).map Book.Title).Nodup := by
      rw [htitles]; exact nodup_firstDedup _
    have hmem' : r.Title ∈ (gspec rs).map Book.Title := by
      rw [htitles]; exact (mem_firstDedup _ _).mpr hmem
    rw [addRow_mem _ _ hnd hmem']
    unfold gspec
    rw [List.map_map, List.map_append,
      show List.map Row.Title [r] = [r.Title] from rfl,
      firstDedup_append_mem _ _ hmem]
    apply List.map_congr_left
    intro t ht
    show (if (specBook rs t).Title = r.Title then
        { specBook rs t with
          Highlights := (specBook rs t).Highlights ++ [rowHighlight r] }
      else specBook rs t) = specBook (rs ++ [r]) t
    by_cases heq : t = r.Title
    · subst heq
      have hc : (specBook rs r.Title).Title = r.Title := rfl
      rw [if_pos hc, specBook_append_self_mem rs r hmem]
    · have hc : ¬ ((specBook rs t).Title = r.Title) := by
        rw [show (specBook rs t).Title = t from rfl]
        exact heq
      rw [if_neg hc, specBook_append_ne rs r t heq]
  · have hmem' : r.Title ∉ (gspec rs).map Book.Title := by
      rw [htitles]
      exact fun hm => hmem ((mem_firstDedup _ _).mp hm)
    rw [addRow_notMem _ _ hmem']
    unfold gspec
    rw [List.map_append, show List.map Row.Title [r] = [r.Title] from rfl,
      firstDedup_append_notMem _ _ hmem, List.map_append]
    congr 1
    · apply List.map_congr_left
      intro t ht
      have htm : t ∈ rs.map Row.Title := (mem_firstDedup _ _).mp ht
      have hne : t ≠ r.Title := fun he => hmem (he ▸ htm)
      exact (specBook_append_ne rs r t hne).symm
    · show [⟨r.Title, r.Author, [rowHighlight r]⟩] = [specBook (rs ++ [r]) r.Title]
      rw [specBook_append_self_new rs r hmem]

theorem foldl_addRow_gspec (rows : List Row) :
    ∀ pre : List Row, rows.foldl addRow (gspec pre) = gspec (pre ++ rows) := by
  induction rows with
  | nil => intro pre; simp [List.foldl]
  | cons r rs ih =>
    intro pre
    show rs.foldl addRow (addRow (gspec pre) r) = _
    rw [addRow_gspec, ih (pre ++ [r])]
    simp

theorem groupRows_eq (rows : List Row) : groupRows rows = gspec rows := by
  have h0 : gspec [] = [] := rfl
  have := foldl_addRow_gspec rows []
  rw [h0] at this
  exact this

theorem find?_eq_self_of_mem (l : List String) (t : String) (h : t ∈ l) :
    l.find? (fun x => x = t) = some t := by
  induction l with
  | nil => simp at h
  | cons x xs ih =>
    by_cases he : x = t
    · subst he
      simp [List.find?]
    · have hm : t ∈ xs := by
        rcases List.mem_cons.mp h with h1 | h1
        · exact absurd h1.symm he
        · exact h1
      rw [List.find?_cons_of_neg _ (by simp [he])]
      exact ih hm

theorem find?_specBook (rows : List Row) (t : String)
    (ht : t ∈ firstDedup (rows.map Row.Title)) :
    (gspec rows).find? (fun b => b.Title = t) = some (specBook rows t) := by
  unfold gspec
  rw [List.find?_map]
  have hcomp : ((fun b : Book => decide (b.Title = t)) ∘ specBook rows) =
      fun x => decide (x = t) := rfl
  rw [hcomp, find?_eq_self_of_mem _ t ht]
  rfl

theorem map_title_map_specBook (rows : List Row) (l : List String) :
    (l.map (specBook rows)).map Book.Title = l := by
  rw [List.map_map]
  have : ∀ t ∈ l, (Book.Title ∘ specBook rows) t = id t := fun t _ => rfl
  rw [List.map_congr_left this, List.map_id]

theorem fetchBooksGroup_eq (rows : List Row) :
    fetchBooksGroup rows =
      (List.insertionSort titleOrder (firstDedup (rows.map Row.Title))).map
        (specBook rows) := by
  unfold fetchBooksGroup
  simp only [groupRows_eq, gspec_titles]
  apply List.map_congr_left
  intro t ht
  have htm : t ∈ firstDedup (rows.map Row.Title) :=
    (List.perm_insertionSort titleOrder _).mem_iff.mp ht
  rw [find?_specBook rows t htm]
  rfl

theorem pairwise_lt_of_sorted_nodup (l : List String)
    (hs : List.Pairwise titleOrder l) (hn : l.Nodup) :
    List.Pairwise (fun a b : String => a.data < b.data) l := by
  induction l with
  | nil => exact List.Pairwise.nil
  | cons x xs ih =>
    rcases List.pairwise_cons.mp hs with ⟨hx, hs'⟩
    rcases List.nodup_cons.mp hn with ⟨hnx, hn'⟩
    refine List.pairwise_cons.mpr ⟨?_, ih hs' hn'⟩
    intro y hy
    refine lt_of_le_of_ne (hx y hy) ?_
    intro he
    exact hnx (String.ext he ▸ hy)

theorem specBook_author (rows : List Row) (t : String)
    (h : t ∈ rows.map Row.Title) :
    (rows.find? (fun r => r.Title = (specBook rows t).Title)).map Row.Author
      = some (specBook rows t).Author := by
  have hT : (specBook rows t).Title = t := rfl
  rw [hT]
  rcases Option.isSome_iff_exists.mp (find?_title_isSome rows t h) with ⟨r, hr⟩
  rw [hr]
  show some r.Author = some (((rows.find? (fun r => r.Title = t)).map Row.Author).getD "")
  rw [hr]
  rfl

/-- **C3.** For every sequence of raw rows, grouping yields exactly one book
per distinct title (titles duplicate-free and exactly the row titles); each
book's author is the author of the first row bearing its title; each book's
highlights are exactly the highlights of the rows bearing its title, in row
order; and the final sequence is strictly ascending by title in code-point
(= UTF-8 byte) order. -/
theorem c3_grouping (rows : List Row) :
    ((fetchBooksGroup rows).map Book.Title).Nodup ∧
    (∀ t : String, t ∈ (fetchBooksGroup rows).map Book.Title ↔ t ∈ rows.map Row.Title) ∧
    (∀ b ∈ fetchBooksGroup rows,
      (rows.find? (fun r => r.Title = b.Title)).map Row.Author = some b.Author) ∧
    (∀ b ∈ fetchBooksGroup rows,
      b.Highlights = (rows.filter (fun r => r.Title = b.Title)).map rowHighlight) ∧
    List.Pairwise (fun b1 b2 : Book => b1.Title.data < b2.Title.data)
      (fetchBooksGroup rows) := by
  have hperm := List.perm_insertionSort titleOrder (firstDedup (rows.map Row.Title))
  refine ⟨?_, ?_, ?_, ?_, ?_⟩
  · rw [fetchBooksGroup_eq, map_title_map_specBook]
    exact hperm.nodup_iff.mpr (nodup_firstDedup _)
  · intro t
    rw [fetchBooksGroup_eq, map_title_map_specBook]
    rw [hperm.mem_iff, mem_firstDedup]
  · intro b hb
    rw [fetchBooksGroup_eq] at hb
    rcases List.mem_map.mp hb with ⟨t, ht, hbt⟩
    subst hbt
    exact specBook_author rows t ((mem_firstDedup _ _).mp (hperm.mem_iff.mp ht))
  · intro b hb
    rw [fetchBooksGroup_eq] at hb
    rcases List.mem_map.mp hb with ⟨t, ht, hbt⟩
    subst hbt
    rfl
  · rw [fetchBooksGroup_eq]
    refine List.pairwise_map.mpr ?_
    have hlt := pairwise_lt_of_sorted_nodup
      (List.insertionSort titleOrder (firstDedup (rows.map Row.Title)))
      (List.sorted_insertionSort titleOrder _)
      (hperm.nodup_iff.mpr (nodup_firstDedup _))
    exact hlt

/-- Concrete instantiation of `c3_grouping`: from three rows (titles B, A, B
in that order) the grouped output contains the book `A` with the second row's
data and the book `B` with the first row's author and both B-highlights in
row order. -/
theorem c3_grouping_witness :
    (Book.mk "B" "b1" [⟨"t1", "d1"⟩, ⟨"t3", "d3"⟩]) ∈
      fetchBooksGroup [⟨"B", "b1", "t1", "d1"⟩, ⟨"A", "a1", "t2", "d2"⟩, ⟨"B", "b2", "t3", "d3"⟩] ∧
    ([⟨"B", "b1", "t1", "d1"⟩, ⟨"A", "a1", "t2", "d2"⟩,
        ⟨"B", "b2", "t3", "d3"⟩].find? (fun r : Row => r.Title = "B")).map Row.Author =
      some "b1" :=
  ⟨by decide, by
    have h := (c3_grouping [⟨"B", "b1", "t1", "d1"⟩, ⟨"A", "a1", "t2", "d2"⟩,
      ⟨"B", "b2", "t3", "d3"⟩]).2.2.1 ⟨"B", "b1", [⟨"t1", "d1"⟩, ⟨"t3", "d3"⟩]⟩ (by decide)
    exact h⟩

theorem totalHighlights_cons (b : Book) (bs : List Book) :
    totalHighlights (b :: bs) = b.Highlights.length + totalHighlights bs := rfl

theorem totalHighlights_addRow (acc : List Book) (r : Row) :
    totalHighlights (addRow acc r) = totalHighlights acc + 1 := by
  induction acc with
  | nil => rfl
  | cons b bs ih =>
    by_cases he : b.Title = r.Title
    · show totalHighlights (if b.Title = r.Title then _ else _) = _
      rw [if_pos he, totalHighlights_cons, totalHighlights_cons]
      show (b.Highlights ++ [rowHighlight r]).length + totalHighlights bs = _
      simp only [List.length_append, List.length_cons, List.length_nil]
      omega
    · show totalHighlights (if b.Title = r.Title then _ else _) = _
      rw [if_neg he, totalHighlights_cons, totalHighlights_cons, ih]
      omega

theorem totalHighlights_groupRows (rows : List Row) :
    totalHighlights (groupRows rows) = rows.length := by
  suffices h : ∀ acc, totalHighlights (rows.foldl addRow acc) =
      totalHighlights acc + rows.length by
    have h0 := h []
    simpa [groupRows, totalHighlights] using h0
  induction rows with
  | nil => intro acc; simp
  | cons r rs ih =>
    intro acc
    show totalHighlights (rs.foldl addRow (addRow acc r)) = _
    rw [ih (addRow acc r), totalHighlights_addRow, List.length_cons]
    omega

theorem totalHighlights_fetchBooksGroup (rows : List Row) :
    totalHighlights (fetchBooksGroup rows) = rows.length := by
  rw [fetchBooksGroup_eq]
  have hperm : ((List.insertionSort titleOrder
        (firstDedup (rows.map Row.Title))).map (specBook rows)).Perm
      ((firstDedup (rows.map Row.Title)).map (specBook rows)) :=
    (List.perm_insertionSort titleOrder _).map (specBook rows)
  have h1 : totalHighlights ((List.insertionSort titleOrder
      (firstDedup (rows.map Row.Title))).map (specBook rows)) =
      totalHighlights (gspec rows) := by
    unfold totalHighlights gspec
    exact List.Perm.sum_eq (hperm.map (fun b => b.Highlights.length))
  rw [h1, ← groupRows_eq, totalHighlights_groupRows]

/-- **C4.** A positive `limit` of `N` caps the raw rows considered before
grouping at `N`, hence the total number of highlights summed over all
returned books is at most `N`; a limit of `0` imposes no bound (the result
is the full, unbounded grouping of the filtered rows). -/
theorem c4_limit (rows : List Row) (limit : Int) :
    (0 < limit →
      ((rows.filter rowKept).take limit.toNat).length ≤ limit.toNat ∧
      totalHighlights (fetchBooksModel rows limit) ≤ limit.toNat) ∧
    fetchBooksModel rows 0 = fetchBooksGroup (rows.filter rowKept) := by
  constructor
  · intro h
    constructor
    · rw [List.length_take]
      exact inf_le_left
    · unfold fetchBooksModel
      rw [if_pos h, totalHighlights_fetchBooksGroup, List.length_take]
      exact inf_le_left
  · unfold fetchBooksModel
    rw [if_neg (by omega)]

/-- Concrete instantiation of `c4_limit`: with limit 1 over two kept rows,
only the first row is considered and the output holds exactly one
highlight. -/
theorem c4_limit_witness :
    ((0 : Int) < 1 ∧
      totalHighlights (fetchBooksModel
        [⟨"A", "a", "x", "d"⟩, ⟨"B", "b", "y", "d"⟩] 1) ≤ (1 : Int).toNat) ∧
    totalHighlights (fetchBooksModel
      [⟨"A", "a", "x", "d"⟩, ⟨"B", "b", "y", "d"⟩] 1) = 1 :=
  ⟨⟨by decide,
    ((c4_limit [⟨"A", "a", "x", "d"⟩, ⟨"B", "b", "y", "d"⟩] 1).1 (by decide)).2⟩,
    by decide⟩

theorem fetchBooksGroup_highlights (rs : List Row)
    (hk : ∀ r ∈ rs, rowKept r = true) :
    ∀ b ∈ fetchBooksGroup rs, b.Highlights ≠ [] ∧
      ∀ h ∈ b.Highlights, sqlTrim h.Text ≠ "" := by
  intro b hb
  rw [fetchBooksGroup_eq] at hb
  rcases List.mem_map.mp hb with ⟨t, ht, hbt⟩
  have htm : t ∈ rs.map Row.Title :=
    (mem_firstDedup _ _).mp ((List.perm_insertionSort titleOrder _).mem_iff.mp ht)
  rcases List.mem_map.mp htm with ⟨r, hr, hrt⟩
  subst hbt
  constructor
  · show (rs.filter (fun x => x.Title = t)).map rowHighlight ≠ []
    have hrf : r ∈ rs.filter (fun x => x.Title = t) :=
      List.mem_filter.mpr ⟨hr, by simp [hrt]⟩
    intro hnil
    rw [List.map_eq_nil_iff] at hnil
    rw [hnil] at hrf
    simp at hrf
  · intro h hh
    have hh' : h ∈ (rs.filter (fun x => x.Title = t)).map rowHighlight := hh
    rcases List.mem_map.mp hh' with ⟨r', hr', hrh⟩
    have hr'' : r' ∈ rs := (List.mem_filter.mp hr').1
    have hkr := hk r' hr''
    rw [← hrh]
    show sqlTrim r'.Text ≠ ""
    simpa [rowKept] using hkr

/-- **C9.** Every book returned by the query engine has at least one
highlight, and every highlight's text is non-blank after (SQL) trimming:
the row filter removes blank-text rows before grouping, and a book is only
created for a surviving row. -/
theorem c9_highlights_nonblank (rows : List Row) (limit : Int) :
    ∀ b ∈ fetchBooksModel rows limit, b.Highlights ≠ [] ∧
      ∀ h ∈ b.Highlights, sqlTrim h.Text ≠ "" := by
  unfold fetchBooksModel
  by_cases hl : limit > 0
  · rw [if_pos hl]
    apply fetchBooksGroup_highlights
    intro r hr
    exact List.of_mem_filter (List.take_subset _ _ hr)
  · rw [if_neg hl]
    apply fetchBooksGroup_highlights
    intro r hr
    exact List.of_mem_filter hr

/-- Concrete instantiation of `c9_highlights_nonblank`: the single book
produced from one non-blank row has a non-empty highlight list. -/
theorem c9_highlights_nonblank_witness :
    (Book.mk "A" "a" [⟨"x", "d"⟩]) ∈ fetchBooksModel [⟨"A", "a", "x", "d"⟩] 0 ∧
    (Book.mk "A" "a" [⟨"x", "d"⟩]).Highlights ≠ [] :=
  ⟨by decide,
    (c9_highlights_nonblank [⟨"A", "a", "x", "d"⟩] 0
      ⟨"A", "a", [⟨"x", "d"⟩]⟩ (by decide)).1⟩

/-- A content block built by `EnsureBookPage`: a quote block holding one
highlight's text, or the empty paragraph block interleaved between quotes. -/
inductive NBlock
  | quote (content : String)
  | blank
deriving DecidableEq

/-- The HTTP requests the Notion client can issue, as recorded in a trace:
the database schema fetch (`resolveTitlePropertyName`), the filtered
existence query (`pageExistsByTitle`), the page-create `POST` (with the
optional Author property), and the batched block-append `PATCH`. -/
inductive NReq
  | schemaFetch
  | queryByTitle (titleProp : String) (title : String)
  | createPage (titleProp : String) (title : String) (author : Option String)
  | appendBlocks (pageId : String) (blocks : List NBlock)
deriving DecidableEq

/-- Response to the schema fetch: HTTP status and the decoded
`properties` map as a `(name, type)` list. -/
structure SchemaResp where
  status : Nat
  properties : List (String × String)

/-- Response to the existence query: HTTP status, body (for the error
snippet), and the number of decoded results. -/
structure QueryResp where
  status : Nat
  body : String
  numResults : Nat

/-- Response to the page-create request: HTTP status, body, decoded page id
(`""` when the response carries none). -/
structure CreateResp where
  status : Nat
  body : String
  pageId : String

/-- Response to a block-append request. -/
structure AppendResp where
  status : Nat
  body : String

/-- The external Notion service as a response oracle: a response for every
request shape. Transport errors and JSON-decode failures are not modelled —
every request yields a structured response whose status the client
inspects. The status line Go formats via `resp.Status` is modelled as the
numeric code rendered with `toString`. -/
structure Service where
  schema : SchemaResp
  query : String → String → QueryResp
  create : String → String → Option String → CreateResp
  append : String → Nat → List NBlock → AppendResp

/-- `NotionClient` from the source: credentials plus the cached title
property name and the resolved flag. -/
structure NotionClient where
  token : String
  databaseID : String
  titlePropName : String
  resolvedTitle : Bool

/-- `NewNotionClient`: the default title property name is `"Title"` and the
schema is not yet resolved. -/
def NewNotionClient (token databaseID : String) : NotionClient :=
  ⟨token, databaseID, "Title", false⟩

/-- `truncateForLog` from the source. Go measures bytes and slices bytes;
the model measures characters, which coincides for ASCII bodies. -/
def truncateForLog (s : String) (max : Nat) : String :=
  if s.data.length ≤ max then s
  else if max < 3 then String.mk (s.data.take max)
  else String.mk (s.data.take (max - 3)) ++ "..."

/-- `resolveTitlePropertyName`: on a successful schema fetch, adopt the name
of the first title-typed property when it differs from `"Title"`, and mark
the client resolved; on a non-success status the client is returned
unchanged (in particular `resolvedTitle` stays `false`). Go iterates the
decoded `properties` map in unspecified order and breaks at the first
title-typed entry; the model fixes the list order. -/
def resolveTitlePropertyName (n : NotionClient) (svc : Service) : NotionClient :=
  if svc.schema.status ≥ 300 then n
  else
    { (match svc.schema.properties.find? (fun p => p.2 = "title") with
       | some p => if p.1 ≠ "Title" then { n with titlePropName := p.1 } else n
       | none => n) with resolvedTitle := true }

/-- The `if !n.resolvedTitle { _ = n.resolveTitlePropertyName() }` prelude
appearing in both `EnsureBookPage` and `pageExistsByTitle`, with the request
it issues. -/
def resolveStep (n : NotionClient) (svc : Service) : NotionClient × List NReq :=
  if n.resolvedTitle then (n, [])
  else (resolveTitlePropertyName n svc, [NReq.schemaFetch])

/-- Result of `pageExistsByTitle`, Go-style: the mutated client, the
requests issued, the returned error (`none` = nil), and the boolean. -/
structure ExistsOut where
  client : NotionClient
  reqs : List NReq
  err : Option String
  found : Bool

/-- `pageExistsByTitle`: resolve the title property if still unresolved, then
query the database for an exact title match with page size 1; a non-success
status is an error carrying a 200-character body snippet, else the answer is
whether any result came back. -/
def pageExistsByTitle (n : NotionClient) (svc : Service) (title : String) : ExistsOut :=
  if (svc.query (resolveStep n svc).1.titlePropName title).status ≥ 300 then
    { client := (resolveStep n svc).1
    , reqs := (resolveStep n svc).2 ++
        [NReq.queryByTitle (resolveStep n svc).1.titlePropName title]
    , err := some ("query API error: " ++
        toString (svc.query (resolveStep n svc).1.titlePropName title).status ++ " – " ++
        truncateForLog (svc.query (resolveStep n svc).1.titlePropName title).body 200)
    , found := false }
  else
    { client := (resolveStep n svc).1
    , reqs := (resolveStep n svc).2 ++
        [NReq.queryByTitle (resolveStep n svc).1.titlePropName title]
    , err := none
    , found := (svc.query (resolveStep n svc).1.titlePropName title).numResults > 0 }

/-- The display title `EnsureBookPage` computes:
`title (author)` when the author is non-empty. -/
def notionDisplayTitle (title author : String) : String :=
  if author ≠ "" then title ++ " (" ++ author ++ ")" else title

/-- The Author property included in the create payload exactly when the
author is non-empty. -/
def authorOption (author : String) : Option String :=
  if author ≠ "" then some author else none

/-- The create request plus the single fallback retry:
`if resp.StatusCode == 400 && author != ""` the request is re-sent once with
the Author property deleted, and the retry's response replaces the first. -/
def createPhase (n : NotionClient) (svc : Service) (notionTitle author : String) :
    List NReq × CreateResp :=
  if (svc.create n.titlePropName notionTitle (authorOption author)).status = 400 ∧
      author ≠ "" then
    ([NReq.createPage n.titlePropName notionTitle (authorOption author),
      NReq.createPage n.titlePropName notionTitle none],
     svc.create n.titlePropName notionTitle none)
  else
    ([NReq.createPage n.titlePropName notionTitle (authorOption author)],
     svc.create n.titlePropName notionTitle (authorOption author))

/-- The block list built from the highlights: one quote block per highlight,
with a blank paragraph block between consecutive quotes (none after the
last), mirroring the indexed loop's `if i < len(highlights)-1`. -/
def buildBlocks : List String → List NBlock
  | [] => []
  | [h] => [NBlock.quote h]
  | h :: rest => NBlock.quote h :: NBlock.blank :: buildBlocks rest

/-- `for i := 0; i < len(blocks); i += 100` slicing: consecutive chunks of at
most `k` blocks. The fuel argument (initially the list length) makes the
recursion structural; `k ≥ 1` consumes the list strictly. -/
def chunksAux (k : Nat) : Nat → List NBlock → List (List NBlock)
  | 0, _ => []
  | _, [] => []
  | fuel + 1, l => l.take k :: chunksAux k fuel (l.drop k)

/-- The batches the append loop sends, in order. -/
def chunksOf (k : Nat) (l : List NBlock) : List (List NBlock) :=
  chunksAux k l.length l

/-- The sequential append loop: one `PATCH` per batch, aborting with a
300-character body snippet on the first non-success status. Returns the
requests issued and the error (`none` = nil). -/
def appendLoop (svc : Service) (pageId : String) :
    List (List NBlock) → Nat → List NReq × Option String
  | [], _ => ([], none)
  | batch :: rest, i =>
    if (svc.append pageId i batch).status ≥ 300 then
      ([NReq.appendBlocks pageId batch],
        some ("notion append error: " ++
          toString (svc.append pageId i batch).status ++ " – " ++
          truncateForLog (svc.append pageId i batch).body 300))
    else
      (NReq.appendBlocks pageId batch :: (appendLoop svc pageId rest (i + 1)).1,
        (appendLoop svc pageId rest (i + 1)).2)

/-- Result of `EnsureBookPage` / `Export`: the mutated client, the request
trace, and the returned error (`none` = nil). -/
structure EnsureOut where
  client : NotionClient
  reqs : List NReq
  err : Option String

/-- `EnsureBookPage`: resolve the title property if needed, skip the book
when a page with the display title already exists, otherwise create the page
(with the one author-omitting fallback) and append the highlight blocks in
batches of 100. -/
def ensureBookPage (n : NotionClient) (svc : Service) (title author : String)
    (highlights : List String) : EnsureOut :=
  let s := resolveStep n svc
  let e := pageExistsByTitle s.1 svc (notionDisplayTitle title author)
  if e.err.isSome then
    { client := e.client, reqs := s.2 ++ e.reqs
    , err := some ("check existing page: " ++ e.err.getD "") }
  else if e.found then
    { client := e.client, reqs := s.2 ++ e.reqs, err := none }
  else
    let c := createPhase e.client svc (notionDisplayTitle title author) author
    if c.2.status ≥ 300 then
      { client := e.client, reqs := s.2 ++ e.reqs ++ c.1
      , err := some ("notion create page error: " ++ toString c.2.status ++ " – " ++
          truncateForLog c.2.body 300) }
    else if c.2.pageId = "" then
      { client := e.client, reqs := s.2 ++ e.reqs ++ c.1
      , err := some "no page ID returned from Notion" }
    else
      { client := e.client
      , reqs := s.2 ++ e.reqs ++ c.1 ++
          (appendLoop svc c.2.pageId (chunksOf 100 (buildBlocks highlights)) 0).1
      , err := (appendLoop svc c.2.pageId (chunksOf 100 (buildBlocks highlights)) 0).2 }

/-- `NotionFormat.Export`: per-book `EnsureBookPage` calls on the shared
client, short-circuiting on the first error with the book's title in the
message. -/
def exportBooks (n : NotionClient) (svc : Service) : List Book → EnsureOut
  | [] => { client := n, reqs := [], err := none }
  | b :: rest =>
    let r := ensureBookPage n svc b.Title b.Author (b.Highlights.map Highlight.Text)
    if r.err.isSome then
      { client := r.client, reqs := r.reqs
      , err := some ("notion export '" ++ b.Title ++ "': " ++ r.err.getD "") }
    else
      { client := (exportBooks r.client svc rest).client
      , reqs := r.reqs ++ (exportBooks r.client svc rest).reqs
      , err := (exportBooks r.client svc rest).err }

/-- Number of schema-fetch requests in a trace. -/
def countSchemaFetch (reqs : List NReq) : Nat :=
  (reqs.filter (fun r => r = NReq.schemaFetch)).length

/-- Whether a request writes to the service (page create or block append). -/
def isWriteReq : NReq → Bool
  | NReq.createPage _ _ _ => true
  | NReq.appendBlocks _ _ => true
  | _ => false

/-- Whether a request is a page create. -/
def isCreateReq : NReq → Bool
  | NReq.createPage _ _ _ => true
  | _ => false

/-- Number of page-create requests in a trace. -/
def countCreates (reqs : List NReq) : Nat := (reqs.filter isCreateReq).length

/-- The block counts of the append requests in a trace, in order. -/
def appendSizes (reqs : List NReq) : List Nat :=
  reqs.foldr (fun r acc =>
    match r with
    | NReq.appendBlocks _ bs => bs.length :: acc
    | _ => acc) []

/-- `400 ≤ status < 500`: the HTTP client-error class. -/
def isClientErrorStatus (s : Nat) : Bool := 400 ≤ s && s < 500

theorem resolveStep_reqs (n : NotionClient) (svc : Service) :
    ∀ r ∈ (resolveStep n svc).2, r = NReq.schemaFetch := by
  unfold resolveStep
  split
  · intro r hr; simp at hr
  · intro r hr; simpa using hr

theorem resolveStep_resolved (n : NotionClient) (svc : Service)
    (h : n.resolvedTitle = true) : resolveStep n svc = (n, []) := by
  unfold resolveStep
  rw [if_pos h]

theorem resolveStep_unresolved (n : NotionClient) (svc : Service)
    (h : n.resolvedTitle = false) :
    resolveStep n svc = (resolveTitlePropertyName n svc, [NReq.schemaFetch]) := by
  unfold resolveStep
  rw [if_neg (by rw [h]; exact Bool.false_ne_true)]

theorem resolveTitle_success_resolved (n : NotionClient) (svc : Service)
    (h : svc.schema.status < 300) :
    (resolveTitlePropertyName n svc).resolvedTitle = true := by
  unfold resolveTitlePropertyName
  rw [if_neg (by omega)]

theorem pageExists_ok (n : NotionClient) (svc : Service) (title : String)
    (hst : (svc.query (resolveStep n svc).1.titlePropName title).status < 300) :
    pageExistsByTitle n svc title =
      { client := (resolveStep n svc).1
      , reqs := (resolveStep n svc).2 ++
          [NReq.queryByTitle (resolveStep n svc).1.titlePropName title]
      , err := none
      , found := (svc.query (resolveStep n svc).1.titlePropName title).numResults > 0 } := by
  unfold pageExistsByTitle
  rw [if_neg (by omega)]

theorem pageExists_client_reqs (n : NotionClient) (svc : Service) (title : String)
    (h : n.resolvedTitle = true) :
    (pageExistsByTitle n svc title).client = n ∧
    (pageExistsByTitle n svc title).reqs = [NReq.queryByTitle n.titlePropName title] := by
  unfold pageExistsByTitle
  rw [resolveStep_resolved n svc h]
  split
  · exact ⟨rfl, rfl⟩
  · exact ⟨rfl, rfl⟩

theorem countSchemaFetch_append (l1 l2 : List NReq) :
    countSchemaFetch (l1 ++ l2) = countSchemaFetch l1 + countSchemaFetch l2 := by
  unfold countSchemaFetch
  rw [List.filter_append, List.length_append]

theorem countSchemaFetch_cons_other (r : NReq) (l : List NReq)
    (h : r ≠ NReq.schemaFetch) :
    countSchemaFetch (r :: l) = countSchemaFetch l := by
  unfold countSchemaFetch
  rw [List.filter_cons_of_neg]
  simp [h]

theorem countSchemaFetch_createPhase (n : NotionClient) (svc : Service)
    (nt author : String) : countSchemaFetch (createPhase n svc nt author).1 = 0 := by
  unfold createPhase
  split <;> rfl

theorem countSchemaFetch_appendLoop (svc : Service) (pid : String) :
    ∀ (batches : List (List NBlock)) (i : Nat),
      countSchemaFetch (appendLoop svc pid batches i).1 = 0 := by
  intro batches
  induction batches with
  | nil => intro i; rfl
  | cons b rest ih =>
    intro i
    unfold appendLoop
    split
    · rfl
    · show countSchemaFetch (NReq.appendBlocks pid b :: (appendLoop svc pid rest (i + 1)).1) = 0
      rw [countSchemaFetch_cons_other _ _ (by intro h; cases h)]
      exact ih (i + 1)

theorem ensure_resolved (n : NotionClient) (svc : Service) (title author : String)
    (highlights : List String) (h : n.resolvedTitle = true) :
    (ensureBookPage n svc title author highlights).client = n ∧
    countSchemaFetch (ensureBookPage n svc title author highlights).reqs = 0 := by
  have hpe := pageExists_client_reqs n svc (notionDisplayTitle title author) h
  simp only [ensureBookPage, resolveStep_resolved n svc h]
  split
  · refine ⟨hpe.1, ?_⟩
    show countSchemaFetch ((n, ([] : List NReq)).2 ++
      (pageExistsByTitle n svc (notionDisplayTitle title author)).reqs) = 0
    rw [countSchemaFetch_append, hpe.2]
    rfl
  · split
    · refine ⟨hpe.1, ?_⟩
      show countSchemaFetch ((n, ([] : List NReq)).2 ++
        (pageExistsByTitle n svc (notionDisplayTitle title author)).reqs) = 0
      rw [countSchemaFetch_append, hpe.2]
      rfl
    · split
      · refine ⟨hpe.1, ?_⟩
        show countSchemaFetch ((n, ([] : List NReq)).2 ++
          (pageExistsByTitle n svc (notionDisplayTitle title author)).reqs ++
          (createPhase (pageExistsByTitle n svc (notionDisplayTitle title author)).client
            svc (notionDisplayTitle title author) author).1) = 0
        rw [countSchemaFetch_append, countSchemaFetch_append, hpe.2,
          countSchemaFetch_createPhase]
        rfl
      · split
        · refine ⟨hpe.1, ?_⟩
          show countSchemaFetch ((n, ([] : List NReq)).2 ++
            (pageExistsByTitle n svc (notionDisplayTitle title author)).reqs ++
            (createPhase (pageExistsByTitle n svc (notionDisplayTitle title author)).client
              svc (notionDisplayTitle title author) author).1) = 0
          rw [countSchemaFetch_append, countSchemaFetch_append, hpe.2,
            countSchemaFetch_createPhase]
          rfl
        · refine ⟨hpe.1, ?_⟩
          rw [countSchemaFetch_append, countSchemaFetch_append, countSchemaFetch_append,
            hpe.2, countSchemaFetch_createPhase, countSchemaFetch_appendLoop]
          rfl

/-- **C7.** When the existence query succeeds and returns at least one
result for every title, `EnsureBookPage` issues no write request (no page
create, no block append) and returns no error. -/
theorem c7_existing_page_skip (n : NotionClient) (svc : Service)
    (title author : String) (highlights : List String)
    (hq : ∀ p t, (svc.query p t).status < 300 ∧ 0 < (svc.query p t).numResults) :
    (ensureBookPage n svc title author highlights).err = none ∧
    ∀ r ∈ (ensureBookPage n svc title author highlights).reqs, isWriteReq r = false := by
  have hq1 := (hq ((resolveStep (resolveStep n svc).1 svc).1.titlePropName)
    (notionDisplayTitle title author)).1
  have hq2 := (hq ((resolveStep (resolveStep n svc).1 svc).1.titlePropName)
    (notionDisplayTitle title author)).2
  have hpe := pageExists_ok (resolveStep n svc).1 svc (notionDisplayTitle title author) hq1
  have hfound : (decide ((svc.query (resolveStep (resolveStep n svc).1 svc).1.titlePropName
      (notionDisplayTitle title author)).numResults > 0)) = true := decide_eq_true hq2
  constructor
  · simp [ensureBookPage, hpe, hfound]
  · intro r hr
    simp only [ensureBookPage, hpe, Option.isSome_none, Bool.false_eq_true, if_false,
      hfound, if_true, List.mem_append] at hr
    rcases hr with h | h | h
    · rw [resolveStep_reqs n svc r h]; rfl
    · rw [resolveStep_reqs (resolveStep n svc).1 svc r h]; rfl
    · simp at h; subst h; rfl

/-- Concrete instantiation of `c7_existing_page_skip`: a service whose query
always finds a page; the export of one book succeeds without any write
request in the trace. -/
def svcFound : Service :=
  { schema := ⟨200, [("Name", "title")]⟩
  , query := fun _ _ => ⟨200, "", 1⟩
  , create := fun _ _ _ => ⟨500, "boom", ""⟩
  , append := fun _ _ _ => ⟨500, "boom"⟩ }

theorem c7_existing_page_skip_witness :
    (∀ p t, (svcFound.query p t).status < 300 ∧ 0 < (svcFound.query p t).numResults) ∧
    (ensureBookPage (NewNotionClient "t" "d") svcFound "T" "A" ["x"]).err = none :=
  ⟨fun p t => ⟨by show (200 : Nat) < 300; decide, by show (0 : Nat) < 1; decide⟩,
    (c7_existing_page_skip (NewNotionClient "t" "d") svcFound "T" "A" ["x"]
      (fun p t => ⟨by show (200 : Nat) < 300; decide, by show (0 : Nat) < 1; decide⟩)).1⟩

theorem ensure_unresolved_ok (n : NotionClient) (svc : Service)
    (title author : String) (highlights : List String)
    (hn : n.resolvedTitle = false) (hs : svc.schema.status < 300) :
    (ensureBookPage n svc title author highlights).client.resolvedTitle = true ∧
    countSchemaFetch (ensureBookPage n svc title author highlights).reqs = 1 := by
  have hn1 : (resolveTitlePropertyName n svc).resolvedTitle = true :=
    resolveTitle_success_resolved n svc hs
  have hpe := pageExists_client_reqs (resolveTitlePropertyName n svc) svc
    (notionDisplayTitle title author) hn1
  simp only [ensureBookPage, resolveStep_unresolved n svc hn]
  have hres : (resolveTitlePropertyName n svc, [NReq.schemaFetch]).1 =
      resolveTitlePropertyName n svc := rfl
  split
  · refine ⟨by rw [hpe.1]; exact hn1, ?_⟩
    show countSchemaFetch ([NReq.schemaFetch] ++
      (pageExistsByTitle (resolveTitlePropertyName n svc) svc
        (notionDisplayTitle title author)).reqs) = 1
    rw [countSchemaFetch_append, hpe.2]
    rfl
  · split
    · refine ⟨by rw [hpe.1]; exact hn1, ?_⟩
      show countSchemaFetch ([NReq.schemaFetch] ++
        (pageExistsByTitle (resolveTitlePropertyName n svc) svc
          (notionDisplayTitle title author)).reqs) = 1
      rw [countSchemaFetch_append, hpe.2]
      rfl
    · split
      · refine ⟨by rw [hpe.1]; exact hn1, ?_⟩
        show countSchemaFetch ([NReq.schemaFetch] ++
          (pageExistsByTitle (resolveTitlePropertyName n svc) svc
            (notionDisplayTitle title author)).reqs ++
          (createPhase (pageExistsByTitle (resolveTitlePropertyName n svc) svc
              (notionDisplayTitle title author)).client
            svc (notionDisplayTitle title author) author).1) = 1
        rw [countSchemaFetch_append, countSchemaFetch_append, hpe.2,
          countSchemaFetch_createPhase]
        rfl
      · split
        · refine ⟨by rw [hpe.1]; exact hn1, ?_⟩
          show countSchemaFetch ([NReq.schemaFetch] ++
            (pageExistsByTitle (resolveTitlePropertyName n svc) svc
              (notionDisplayTitle title author)).reqs ++
            (createPhase (pageExistsByTitle (resolveTitlePropertyName n svc) svc
                (notionDisplayTitle title author)).client
              svc (notionDisplayTitle title author) author).1) = 1
          rw [countSchemaFetch_append, countSchemaFetch_append, hpe.2,
            countSchemaFetch_createPhase]
          rfl
        · refine ⟨by rw [hpe.1]; exact hn1, ?_⟩
          rw [countSchemaFetch_append, countSchemaFetch_append, countSchemaFetch_append,
            hpe.2, countSchemaFetch_createPhase, countSchemaFetch_appendLoop]
          rfl

theorem exportBooks_resolved (svc : Service) (books : List Book) :
    ∀ n : NotionClient, n.resolvedTitle = true →
      (exportBooks n svc books).client = n ∧
      countSchemaFetch (exportBooks n svc books).reqs = 0 := by
  induction books with
  | nil => intro n h; exact ⟨rfl, rfl⟩
  | cons b rest ih =>
    intro n h
    have he := ensure_resolved n svc b.Title b.Author (b.Highlights.map Highlight.Text) h
    simp only [exportBooks]
    split
    · exact ⟨he.1, he.2⟩
    · refine ⟨?_, ?_⟩
      · rw [he.1]
        exact (ih n h).1
      · rw [countSchemaFetch_append, he.2, he.1, (ih n h).2]

/-- **C8 (amended).** The fresh client assumes a title property named
`"Title"`, and when the schema fetch succeeds, a whole export run performs
the discovery call at most once: the flag is cached after the first
successful attempt, and every later book reuses the cached name. (When the
fetch fails, the flag stays unset and discovery is retried — see the
counterexample.) -/
theorem c8_schema_discovery_cached (token dbid : String) (svc : Service)
    (books : List Book) (h : svc.schema.status < 300) :
    (NewNotionClient token dbid).titlePropName = "Title" ∧
    countSchemaFetch (exportBooks (NewNotionClient token dbid) svc books).reqs ≤ 1 := by
  refine ⟨rfl, ?_⟩
  cases books with
  | nil => show countSchemaFetch [] ≤ 1; decide
  | cons b rest =>
    have hu := ensure_unresolved_ok (NewNotionClient token dbid) svc b.Title b.Author
      (b.Highlights.map Highlight.Text) rfl h
    simp only [exportBooks]
    split
    · show countSchemaFetch (ensureBookPage (NewNotionClient token dbid) svc b.Title
        b.Author (b.Highlights.map Highlight.Text)).reqs ≤ 1
      rw [hu.2]
    · rw [countSchemaFetch_append, hu.2,
        (exportBooks_resolved svc rest _ hu.1).2]

/-- Service whose schema fetch always succeeds and whose query always finds
the page (every call of a run succeeds). -/
def svcSchemaOk : Service :=
  { schema := ⟨200, [("Name", "title")]⟩
  , query := fun _ _ => ⟨200, "", 1⟩
  , create := fun _ _ _ => ⟨200, "", "pid"⟩
  , append := fun _ _ _ => ⟨200, ""⟩ }

theorem c8_schema_discovery_cached_witness :
    svcSchemaOk.schema.status < 300 ∧
    countSchemaFetch (exportBooks (NewNotionClient "t" "d") svcSchemaOk
      [⟨"T", "", [⟨"x", "d"⟩]⟩, ⟨"U", "", [⟨"y", "d"⟩]⟩]).reqs ≤ 1 :=
  ⟨by decide,
    (c8_schema_discovery_cached "t" "d" svcSchemaOk
      [⟨"T", "", [⟨"x", "d"⟩]⟩, ⟨"U", "", [⟨"y", "d"⟩]⟩] (by decide)).2⟩

/-- Service whose schema fetch fails with a server error while everything
else succeeds. -/
def svcSchemaFail : Service :=
  { schema := ⟨500, []⟩
  , query := fun _ _ => ⟨200, "", 1⟩
  , create := fun _ _ _ => ⟨200, "", "pid"⟩
  , append := fun _ _ _ => ⟨200, ""⟩ }

/-- **C8 counterexample.** When the first schema fetch fails, the resolved
flag stays unset, so the discovery call is re-issued by the existence check
of the very same (first successful) book export: the run performs two
schema-fetch requests, refuting "at most once per process lifetime
regardless of the outcome of the first attempt". -/
theorem c8_counterexample :
    countSchemaFetch (exportBooks (NewNotionClient "tok" "db") svcSchemaFail
      [⟨"T", "", [⟨"x", "d"⟩]⟩]).reqs = 2 ∧
    ¬ countSchemaFetch (exportBooks (NewNotionClient "tok" "db") svcSchemaFail
      [⟨"T", "", [⟨"x", "d"⟩]⟩]).reqs ≤ 1 := by decide

theorem countCreates_two (p nt : String) (a1 a2 : Option String) :
    countCreates [NReq.createPage p nt a1, NReq.createPage p nt a2] = 2 := rfl

theorem countCreates_one (p nt : String) (a : Option String) :
    countCreates [NReq.createPage p nt a] = 1 := rfl

theorem truncateForLog_300_le (s : String) :
    (truncateForLog s 300).data.length ≤ 300 := by
  unfold truncateForLog
  split
  · rename_i h
    exact h
  · split
    · rename_i h1 h2
      exact absurd h2 (by omega)
    · show ((String.mk (s.data.take (300 - 3)) ++ "...").data).length ≤ 300
      rw [String.data_append,
        show (String.mk (s.data.take (300 - 3))).data = s.data.take (300 - 3) from rfl,
        List.length_append, List.length_take]
      have h3 : ("...".data).length = 3 := rfl
      rw [h3]
      have hm : (300 - 3) ⊓ s.data.length ≤ 300 - 3 := inf_le_left
      omega

theorem pageExists_ok_resolved (n : NotionClient) (svc : Service) (title : String)
    (hres : n.resolvedTitle = true)
    (hst : (svc.query n.titlePropName title).status < 300) :
    pageExistsByTitle n svc title =
      { client := n
      , reqs := [NReq.queryByTitle n.titlePropName title]
      , err := none
      , found := (svc.query n.titlePropName title).numResults > 0 } := by
  have h := pageExists_ok n svc title
    (by rw [resolveStep_resolved n svc hres]; exact hst)
  rw [h, resolveStep_resolved n svc hres]
  rfl

/-- **C2 (amended).** In the page-creation step (already-resolved client,
existence query succeeding with no match): the create request is re-sent
exactly once, with the Author property omitted, if and only if the first
response status is exactly `400` and a non-empty author was supplied — no
other status (no other client error, no server error) and no empty author
triggers the fallback; any remaining non-success (`≥ 300`) status after the
fallback is a fatal per-book error whose message carries a response-body
snippet truncated to at most 300 characters. -/
theorem c2_create_fallback (n : NotionClient) (svc : Service) (title author : String)
    (highlights : List String) (hres : n.resolvedTitle = true)
    (hq : ∀ p t, (svc.query p t).status < 300 ∧ (svc.query p t).numResults = 0) :
    (countCreates (createPhase n svc (notionDisplayTitle title author) author).1 = 2 ↔
      (svc.create n.titlePropName (notionDisplayTitle title author)
        (authorOption author)).status = 400 ∧ author ≠ "") ∧
    ((svc.create n.titlePropName (notionDisplayTitle title author)
        (authorOption author)).status = 400 ∧ author ≠ "" →
      (createPhase n svc (notionDisplayTitle title author) author).1 =
        [NReq.createPage n.titlePropName (notionDisplayTitle title author)
          (authorOption author),
         NReq.createPage n.titlePropName (notionDisplayTitle title author) none] ∧
      (createPhase n svc (notionDisplayTitle title author) author).2 =
        svc.create n.titlePropName (notionDisplayTitle title author) none) ∧
    (¬ ((svc.create n.titlePropName (notionDisplayTitle title author)
        (authorOption author)).status = 400 ∧ author ≠ "") →
      (createPhase n svc (notionDisplayTitle title author) author).1 =
        [NReq.createPage n.titlePropName (notionDisplayTitle title author)
          (authorOption author)]) ∧
    ((createPhase n svc (notionDisplayTitle title author) author).2.status ≥ 300 →
      (ensureBookPage n svc title author highlights).err =
        some ("notion create page error: " ++
          toString (createPhase n svc (notionDisplayTitle title author) author).2.status ++
          " – " ++ truncateForLog
            (createPhase n svc (notionDisplayTitle title author) author).2.body 300)) ∧
    (∀ s : String, (truncateForLog s 300).data.length ≤ 300) := by
  have hq1 := (hq n.titlePropName (notionDisplayTitle title author)).1
  have hq2 := (hq n.titlePropName (notionDisplayTitle title author)).2
  have hpe := pageExists_ok_resolved n svc (notionDisplayTitle title author) hres hq1
  have hfound : (decide ((svc.query n.titlePropName
      (notionDisplayTitle title author)).numResults > 0)) = false := by
    rw [hq2]; decide
  refine ⟨?_, ?_, ?_, ?_, truncateForLog_300_le⟩
  · unfold createPhase
    split
    · rename_i hcond
      rw [countCreates_two]
      exact iff_of_true rfl hcond
    · rename_i hcond
      rw [countCreates_one]
      exact iff_of_false (by omega) hcond
  · intro hcond
    unfold createPhase
    rw [if_pos hcond]
    exact ⟨rfl, rfl⟩
  · intro hcond
    unfold createPhase
    rw [if_neg hcond]
  · intro hst
    simp only [ensureBookPage, resolveStep_resolved n svc hres, hpe,
      Option.isSome_none, Bool.false_eq_true, if_false, hfound]
    rw [if_pos hst]

/-- Service whose create call fails with `404` (a client error that is not
`400`) while the schema fetch and query succeed (query finds nothing). -/
def svcCreate404 : Service :=
  { schema := ⟨200, [("Name", "title")]⟩
  , query := fun _ _ => ⟨200, "", 0⟩
  , create := fun _ _ _ => ⟨404, "nope", ""⟩
  , append := fun _ _ _ => ⟨200, ""⟩ }

/-- **C2 counterexample.** With a non-empty author and a first create
response of `404` — a client-error status — the code does *not* retry (the
fallback tests `== 400`, not the 4xx class): only one create request is
issued, refuting the claimed "if and only if ... client-error status". -/
theorem c2_counterexample :
    isClientErrorStatus 404 = true ∧
    ("A" : String) ≠ "" ∧
    countCreates (ensureBookPage (NewNotionClient "t" "d") svcCreate404
      "T" "A" ["x"]).reqs = 1 ∧
    countCreates (ensureBookPage (NewNotionClient "t" "d") svcCreate404
      "T" "A" ["x"]).reqs ≠ 2 := by decide

/-- Fully-resolved client used to instantiate `c2_create_fallback`. -/
def resolvedClient : NotionClient :=
  { token := "t", databaseID := "d", titlePropName := "Title", resolvedTitle := true }

/-- Concrete instantiation of `c2_create_fallback`: the remaining `404`
after the (non-firing) fallback is a fatal error carrying the truncated
body snippet. -/
theorem c2_create_fallback_witness :
    (createPhase resolvedClient svcCreate404
      (notionDisplayTitle "T" "A") "A").2.status ≥ 300 ∧
    (ensureBookPage resolvedClient svcCreate404 "T" "A" ["x"]).err =
      some ("notion create page error: " ++
        toString (createPhase resolvedClient svcCreate404
          (notionDisplayTitle "T" "A") "A").2.status ++ " – " ++
        truncateForLog (createPhase resolvedClient svcCreate404
          (notionDisplayTitle "T" "A") "A").2.body 300) :=
  ⟨by decide,
    (c2_create_fallback resolvedClient svcCreate404 "T" "A" ["x"] rfl
      (fun p t => ⟨by show (200 : Nat) < 300; decide, rfl⟩)).2.2.2.1 (by decide)⟩

theorem buildBlocks_length (hs : List String) (hne : hs ≠ []) :
    (buildBlocks hs).length = 2 * hs.length - 1 := by
  induction hs with
  | nil => exact absurd rfl hne
  | cons h rest ih =>
    cases rest with
    | nil => rfl
    | cons h2 rest2 =>
      show (NBlock.quote h :: NBlock.blank :: buildBlocks (h2 :: rest2)).length = _
      rw [List.length_cons, List.length_cons, ih (by simp)]
      simp only [List.length_cons]
      omega

/-- The batch sizes as a function of the block count alone. -/
def sizesAux (k : Nat) : Nat → Nat → List Nat
  | 0, _ => []
  | _, 0 => []
  | fuel + 1, n + 1 => (k ⊓ (n + 1)) :: sizesAux k fuel (n + 1 - k)

theorem chunksAux_sizes (k : Nat) : ∀ (fuel : Nat) (l : List NBlock),
    (chunksAux k fuel l).map List.length = sizesAux k fuel l.length := by
  intro fuel
  induction fuel with
  | zero => intro l; cases l <;> rfl
  | succ f ih =>
    intro l
    cases l with
    | nil => rfl
    | cons a t =>
      show ((a :: t).take k :: chunksAux k f ((a :: t).drop k)).map List.length = _
      rw [List.map_cons, ih ((a :: t).drop k), List.length_take, List.length_drop]
      rfl

theorem appendLoop_ok (svc : Service) (pid : String)
    (ha : ∀ i batch, (svc.append pid i batch).status < 300) :
    ∀ (batches : List (List NBlock)) (i : Nat),
      (appendLoop svc pid batches i).2 = none ∧
      (appendLoop svc pid batches i).1 = batches.map (NReq.appendBlocks pid) := by
  intro batches
  induction batches with
  | nil => intro i; exact ⟨rfl, rfl⟩
  | cons b rest ih =>
    intro i
    unfold appendLoop
    rw [if_neg (by have := ha i b; omega)]
    refine ⟨(ih (i + 1)).1, ?_⟩
    show NReq.appendBlocks pid b :: (appendLoop svc pid rest (i + 1)).1 = _
    rw [List.map_cons, (ih (i + 1)).2]

theorem appendSizes_append (l1 l2 : List NReq) :
    appendSizes (l1 ++ l2) = appendSizes l1 ++ appendSizes l2 := by
  induction l1 with
  | nil => rfl
  | cons r t ih =>
    cases r with
    | appendBlocks pid bs =>
      show bs.length :: appendSizes (t ++ l2) =
        (bs.length :: appendSizes t) ++ appendSizes l2
      rw [List.cons_append, ih]
    | schemaFetch => exact ih
    | queryByTitle p ti => exact ih
    | createPage p ti a => exact ih

theorem appendSizes_map (pid : String) (batches : List (List NBlock)) :
    appendSizes (batches.map (NReq.appendBlocks pid)) = batches.map List.length := by
  induction batches with
  | nil => rfl
  | cons b t ih =>
    show b.length :: appendSizes (t.map (NReq.appendBlocks pid)) = _
    rw [ih, List.map_cons]

theorem appendSizes_resolveStep (n : NotionClient) (svc : Service) :
    appendSizes (resolveStep n svc).2 = [] := by
  unfold resolveStep
  split <;> rfl

theorem appendSizes_createPhase (n : NotionClient) (svc : Service)
    (nt author : String) : appendSizes (createPhase n svc nt author).1 = [] := by
  unfold createPhase
  split <;> rfl

theorem createPhase_resp (n : NotionClient) (svc : Service) (nt author : String)
    (hc : ∀ p t a, (svc.create p t a).status < 300 ∧ (svc.create p t a).pageId ≠ "") :
    (createPhase n svc nt author).2.status < 300 ∧
    (createPhase n svc nt author).2.pageId ≠ "" := by
  unfold createPhase
  split
  · exact ⟨(hc _ _ _).1, (hc _ _ _).2⟩
  · exact ⟨(hc _ _ _).1, (hc _ _ _).2⟩

theorem appendSizes_query (p t : String) :
    appendSizes [NReq.queryByTitle p t] = [] := rfl

theorem ensure_create_trace (n : NotionClient) (svc : Service) (title author : String)
    (highlights : List String)
    (hq : ∀ p t, (svc.query p t).status < 300 ∧ (svc.query p t).numResults = 0)
    (hc : ∀ p t a, (svc.create p t a).status < 300 ∧ (svc.create p t a).pageId ≠ "")
    (ha : ∀ pid i batch, (svc.append pid i batch).status < 300) :
    (ensureBookPage n svc title author highlights).err = none ∧
    appendSizes (ensureBookPage n svc title author highlights).reqs =
      (chunksOf 100 (buildBlocks highlights)).map List.length := by
  have hq1 := (hq ((resolveStep (resolveStep n svc).1 svc).1.titlePropName)
    (notionDisplayTitle title author)).1
  have hq2 := (hq ((resolveStep (resolveStep n svc).1 svc).1.titlePropName)
    (notionDisplayTitle title author)).2
  have hpe := pageExists_ok (resolveStep n svc).1 svc (notionDisplayTitle title author) hq1
  have hfound : (decide ((svc.query (resolveStep (resolveStep n svc).1 svc).1.titlePropName
      (notionDisplayTitle title author)).numResults > 0)) = false := by
    rw [hq2]; decide
  have hcr := createPhase_resp (resolveStep (resolveStep n svc).1 svc).1 svc
    (notionDisplayTitle title author) author hc
  have hal := appendLoop_ok svc ((createPhase (resolveStep (resolveStep n svc).1 svc).1 svc
      (notionDisplayTitle title author) author).2.pageId)
    (fun i batch => ha _ i batch) (chunksOf 100 (buildBlocks highlights)) 0
  simp only [ensureBookPage, hpe, Option.isSome_none, Bool.false_eq_true, if_false, hfound]
  rw [if_neg (by have h1 := hcr.1; omega), if_neg hcr.2]
  constructor
  · exact hal.1
  · simp only [appendSizes_append, appendSizes_resolveStep, appendSizes_createPhase,
      appendSizes_query, hal.2, appendSizes_map, List.nil_append, List.append_nil]

/-- **C1 (amended).** For a book with 250 highlights the exporter builds
499 content blocks (250 quotes with 249 blank paragraphs interleaved between
consecutive quotes, none after the last) and appends them to the created
page across exactly **5** HTTP append requests of 100, 100, 100, 100 and 99
blocks — never more than 100 blocks per request, blanks counting toward the
per-request total. -/
theorem c1_append_batching (n : NotionClient) (svc : Service) (title : String)
    (highlights : List String) (hlen : highlights.length = 250)
    (hq : ∀ p t, (svc.query p t).status < 300 ∧ (svc.query p t).numResults = 0)
    (hc : ∀ p t a, (svc.create p t a).status < 300 ∧ (svc.create p t a).pageId ≠ "")
    (ha : ∀ pid i batch, (svc.append pid i batch).status < 300) :
    (ensureBookPage n svc title "" highlights).err = none ∧
    (buildBlocks highlights).length = 499 ∧
    appendSizes (ensureBookPage n svc title "" highlights).reqs =
      [100, 100, 100, 100, 99] ∧
    (appendSizes (ensureBookPage n svc title "" highlights).reqs).length = 5 ∧
    ∀ k ∈ appendSizes (ensureBookPage n svc title "" highlights).reqs, k ≤ 100 := by
  have h := ensure_create_trace n svc title "" highlights hq hc ha
  have hbl : (buildBlocks highlights).length = 499 := by
    rw [buildBlocks_length highlights (by intro he; rw [he] at hlen; simp at hlen), hlen]
  have hsz : appendSizes (ensureBookPage n svc title "" highlights).reqs =
      [100, 100, 100, 100, 99] := by
    rw [h.2]
    unfold chunksOf
    rw [chunksAux_sizes, hbl]
    decide
  refine ⟨h.1, hbl, hsz, by rw [hsz]; rfl, ?_⟩
  rw [hsz]
  intro k hk
  fin_cases hk <;> decide

/-- Service on which every call succeeds and the query finds nothing, so a
book is created and populated. -/
def svcAllOk : Service :=
  { schema := ⟨200, [("Name", "title")]⟩
  , query := fun _ _ => ⟨200, "", 0⟩
  , create := fun _ _ _ => ⟨200, "", "pid"⟩
  , append := fun _ _ _ => ⟨200, ""⟩ }

/-- **C1 counterexample.** For a book with 250 highlights the exporter sends
**5** append requests, not 3: the 249 interleaved blank paragraphs count
toward the 100-block cap, so 499 blocks need 5 batches. -/
theorem c1_counterexample :
    (appendSizes (ensureBookPage (NewNotionClient "t" "d") svcAllOk "T" ""
      (List.replicate 250 "h")).reqs).length = 5 ∧
    (appendSizes (ensureBookPage (NewNotionClient "t" "d") svcAllOk "T" ""
      (List.replicate 250 "h")).reqs).length ≠ 3 := by
  have h := ensure_create_trace (NewNotionClient "t" "d") svcAllOk "T" ""
    (List.replicate 250 "h")
    (fun p t => ⟨by show (200 : Nat) < 300; decide, rfl⟩)
    (fun p t a => ⟨by show (200 : Nat) < 300; decide,
      by show ("pid" : String) ≠ ""; decide⟩)
    (fun pid i b => by show (200 : Nat) < 300; decide)
  have hbl : (buildBlocks (List.replicate 250 "h")).length = 499 := by
    rw [buildBlocks_length _ (by
      intro he
      have h0 := congrArg List.length he
      simp at h0), List.length_replicate]
  have h5 : (appendSizes (ensureBookPage (NewNotionClient "t" "d") svcAllOk "T" ""
      (List.replicate 250 "h")).reqs).length = 5 := by
    rw [h.2]
    unfold chunksOf
    rw [chunksAux_sizes, hbl]
    decide
  exact ⟨h5, by rw [h5]; decide⟩

/-- Concrete instantiation of `c1_append_batching` on an all-success
service and 250 one-character highlights. -/
theorem c1_append_batching_witness :
    (List.replicate 250 "h").length = 250 ∧
    appendSizes (ensureBookPage (NewNotionClient "t" "d") svcAllOk "T" ""
      (List.replicate 250 "h")).reqs = [100, 100, 100, 100, 99] :=
  ⟨by simp,
    (c1_append_batching (NewNotionClient "t" "d") svcAllOk "T"
      (List.replicate 250 "h") (by simp)
      (fun p t => ⟨by show (200 : Nat) < 300; decide, rfl⟩)
      (fun p t a => ⟨by show (200 : Nat) < 300; decide,
        by show ("pid" : String) ≠ ""; decide⟩)
      (fun pid i b => by show (200 : Nat) < 300; decide)).2.2.1⟩

end KoboHighlights
